import Mathlib

/-!
Verification of the analysis engine of the subscription-manager repository
(`analyzer.py`).  The Python module is shallowly embedded: Python floats are
modelled by exact rationals (`ℚ`), calendar dates by integer day numbers
(`ℤ`, the analogue of `date.toordinal()`), and JSON dictionary records by a
structure with `Option` fields (`none` models a missing key or an
unparseable/null value, mirroring the `try/except` and `is not None`
guards at every point of use).  `round(x, 2)` is modelled by exact
round-half-to-even on rationals.
-/

namespace MySub

/-- Round to the nearest integer, ties to even — the convention of Python's
built-in `round`. -/
def roundHalfEven (q : ℚ) : ℤ :=
  if q - ⌊q⌋ < 1/2 then ⌊q⌋
  else if 1/2 < q - ⌊q⌋ then ⌊q⌋ + 1
  else if 2 ∣ ⌊q⌋ then ⌊q⌋ else ⌊q⌋ + 1

/-- Model of Python `round(x, 2)`. -/
def round2 (q : ℚ) : ℚ := (roundHalfEven (q * 100) : ℚ) / 100

/-- Billing frequency labels returned by `detect_frequency`; Python's `None`
("unknown") is modelled by `Option.none`. -/
inductive Freq
  | monthly
  | quarterly
  | yearly
deriving DecidableEq

/-- One record of the `subscriptions.jsonl` store, as consumed by
`analyzer.py`.  `amount` is `none` when the JSON value is null or the key is
missing (`r.get("amount") is not None`); `date` is the parse result of
`date.fromisoformat(r["date"])`, `none` when the key is missing or the string
is unparseable; `dateRaw` is the raw `r["date"]` string (used only by the
monthly-trend bucketing, which slices the string); `currency` and `status`
are `none` when the key is missing. -/
structure ChargeRecord where
  merchant : String
  amount : Option ℚ
  currency : Option String
  date : Option ℤ
  dateRaw : Option String
  status : Option String
deriving DecidableEq

/-- The per-merchant summary dict produced by `analyze_merchant`.
`last_charge` and `next_renewal` are ISO strings in the source; here they are
the underlying day numbers. -/
structure MerchantSummary where
  merchant : String
  category : String
  charge_count : ℕ
  avg_amount : ℚ
  currency : String
  frequency : Option Freq
  monthly_cost : ℚ
  yearly_cost : ℚ
  last_charge : Option ℤ
  days_since_last : Option ℤ
  next_renewal : Option ℤ
  dates : List ℤ
  is_forgotten : Bool
deriving DecidableEq

/-- `CATEGORY_RULES` from `analyzer.py`: ordered keyword rules, first match
wins. -/
def CATEGORY_RULES : List (List String × String) := [
  (["openai", "anthropic", "claude", "gemini", "copilot", "midjourney", "jasper", "writesonic", "perplexity"], "AI Tools"),
  (["netflix", "hulu", "disney", "hbo", "max", "peacock", "paramount", "apple tv", "prime video", "crunchyroll"], "Streaming Video"),
  (["spotify", "apple music", "tidal", "deezer", "pandora", "youtube music", "soundcloud"], "Music Streaming"),
  (["github", "gitlab", "jira", "confluence", "notion", "linear", "asana", "trello", "basecamp", "monday"], "Dev / Project Mgmt"),
  (["dropbox", "google one", "icloud", "onedrive", "box", "backblaze", "carbonite"], "Cloud Storage"),
  (["adobe", "figma", "canva", "sketch", "invision", "procreate"], "Design Tools"),
  (["aws", "gcp", "azure", "digitalocean", "vercel", "netlify", "heroku", "render", "railway"], "Cloud Hosting"),
  (["zoom", "slack", "teams", "webex", "meet", "loom"], "Communication"),
  (["nytimes", "washington post", "wsj", "medium", "substack", "economist", "bloomberg"], "News / Media"),
  (["shopify", "squarespace", "wix", "wordpress", "webflow"], "Website Builders"),
  (["duolingo", "masterclass", "coursera", "udemy", "pluralsight", "linkedin learning"], "Education"),
  (["grammarly", "hemingway", "prowritingaid"], "Writing Tools"),
  (["1password", "lastpass", "dashlane", "bitwarden", "nordpass"], "Password Managers"),
  (["nordvpn", "expressvpn", "surfshark", "mullvad", "protonvpn"], "VPN"),
  (["xero", "quickbooks", "freshbooks", "wave", "bench"], "Accounting")]

/-- `pat` begins the list `l`. -/
def listStartsWith [DecidableEq α] : List α → List α → Bool
  | _, [] => true
  | [], _ :: _ => false
  | x :: xs, p :: ps => decide (x = p) && listStartsWith xs ps

/-- `pat` occurs contiguously inside `l`: the model of Python's
`pat in s` substring test. -/
def listContainsSeq [DecidableEq α] : List α → List α → Bool
  | [], pat => listStartsWith ([] : List α) pat
  | x :: xs, pat => listStartsWith (x :: xs) pat || listContainsSeq xs pat

/-- Python `kw in lower` on strings. -/
def strContains (s pat : String) : Bool := listContainsSeq s.toList pat.toList

/-- Python `s.lower()` (ASCII, which covers every keyword in the table). -/
def strLower (s : String) : String := String.mk (s.toList.map Char.toLower)

/-- `categorize` from `analyzer.py`: first rule any of whose keywords is a
substring of the lower-cased merchant name; `"Other"` when none matches. -/
def categorize (merchant : String) : String :=
  let lower := strLower merchant
  match CATEGORY_RULES.find? (fun rule => rule.1.any (fun kw => strContains lower kw)) with
  | some rule => rule.2
  | none => "Other"

/-- `detect_frequency` from `analyzer.py`: mean consecutive gap, classified
by inclusive bands. -/
def detect_frequency (dates : List ℤ) : Option Freq :=
  if dates.length < 2 then none
  else
    let gaps : List ℤ := List.zipWith (fun a b => a - b) dates.tail dates
    let avg_gap : ℚ := (gaps.sum : ℚ) / (gaps.length : ℚ)
    if 25 ≤ avg_gap ∧ avg_gap ≤ 35 then some .monthly
    else if 80 ≤ avg_gap ∧ avg_gap ≤ 100 then some .quarterly
    else if 340 ≤ avg_gap ∧ avg_gap ≤ 390 then some .yearly
    else none

/-- `predict_next_renewal` from `analyzer.py`.  The Python guard
`if not dates or not frequency` is the `none` cases below; the final
`else: return None` branch is unreachable here because `Freq` is exhaustive. -/
def predict_next_renewal (dates : List ℤ) (frequency : Option Freq) : Option ℤ :=
  match dates.max?, frequency with
  | none, _ => none
  | _, none => none
  | some last, some .monthly => some (last + 30)
  | some last, some .quarterly => some (last + 91)
  | some last, some .yearly => some (last + 365)

/-- The fixed projection offset of §4.3 of the spec: +30/+91/+365 days. -/
def renewalOffset : Freq → ℤ
  | .monthly => 30
  | .quarterly => 91
  | .yearly => 365

/-- `analyze_merchant` from `analyzer.py`.  `today` stands for
`date.today()`. -/
def analyze_merchant (merchant : String) (records : List ChargeRecord) (today : ℤ) :
    MerchantSummary :=
  let amounts : List ℚ := records.filterMap ChargeRecord.amount
  let dates_raw : List ℤ :=
    (records.filterMap ChargeRecord.date).mergeSort (fun a b => decide (a ≤ b))
  let frequency := detect_frequency dates_raw
  let last_charge := dates_raw.max?
  let days_since_last := dates_raw.max?.map (fun d => today - d)
  let next_renewal := predict_next_renewal dates_raw frequency
  let avg_amount : ℚ :=
    if amounts.isEmpty then 0 else round2 (amounts.sum / (amounts.length : ℚ))
  let monthly_cost : ℚ :=
    match frequency with
    | some .yearly => round2 (avg_amount / 12)
    | some .quarterly => round2 (avg_amount / 3)
    | _ => avg_amount
  let yearly_cost := round2 (monthly_cost * 12)
  { merchant := merchant
    category := categorize merchant
    charge_count := records.length
    avg_amount := avg_amount
    currency := (records.head?.bind ChargeRecord.currency).getD "USD"
    frequency := frequency
    monthly_cost := monthly_cost
    yearly_cost := yearly_cost
    last_charge := last_charge
    days_since_last := days_since_last
    next_renewal := next_renewal
    dates := dates_raw
    is_forgotten :=
      match days_since_last, frequency with
      | some d, some _ => decide (90 < d)
      | _, _ => false }

/-- The claim-side recursive description of the consecutive-day gaps of a
date series, used to state the frequency-band property independently of the
`zipWith` form inside `detect_frequency`. -/
def consecutiveGaps : List ℤ → List ℤ
  | [] => []
  | [_] => []
  | a :: b :: t => (b - a) :: consecutiveGaps (b :: t)

/-- The distinct elements of a list in order of first appearance: the key
sequence of a Python `dict`/`defaultdict` filled by iteration. -/
def dedupFirst [DecidableEq κ] : List κ → List κ
  | [] => []
  | k :: ks => k :: dedupFirst (ks.filter (fun x => decide (x ≠ k)))
termination_by l => l.length
decreasing_by
  exact Nat.lt_succ_of_le (List.length_filter_le _ _)

/-- Grouping by a key function, with Python `defaultdict` semantics: keys in
first-appearance order, each group the order-preserving selection of the
elements with that key. -/
def groupByKey [DecidableEq κ] (key : α → κ) (l : List α) : List (κ × List α) :=
  (dedupFirst (l.map key)).map (fun k => (k, l.filter (fun x => decide (key x = k))))

/-- `OVERLAP_TOLERANCE` from `analyzer.py`. -/
def OVERLAP_TOLERANCE : ℚ := 30 / 100

/-- One overlap-warning dict from `detect_overlaps`.  The free-text `reason`
field of the source (an f-string over the two costs) is presentational only
and is not modelled. -/
structure OverlapWarning where
  category : String
  merchant_a : String
  merchant_b : String
  monthly_cost_a : ℚ
  monthly_cost_b : ℚ
  potential_savings : ℚ
deriving DecidableEq

/-- The overlap entry built for a flagged pair `(a, b)` of `detect_overlaps`
(its `category` variable equals `a`'s category for every member of the
group). -/
def mkOverlap (a b : MerchantSummary) : OverlapWarning :=
  { category := a.category
    merchant_a := a.merchant
    merchant_b := b.merchant
    monthly_cost_a := a.monthly_cost
    monthly_cost_b := b.monthly_cost
    potential_savings := min a.monthly_cost b.monthly_cost }

/-- All ordered pairs `(l[i], l[j])` with `i < j`: the nested
`for i … for j in range(i+1, …)` loops of `detect_overlaps`. -/
def allPairs : List α → List (α × α)
  | [] => []
  | x :: xs => xs.map (fun y => (x, y)) ++ allPairs xs

/-- The body of the inner loop of `detect_overlaps`: skip the pair when a
`monthly_cost` is exactly 0, otherwise flag when the relative price
difference is within tolerance. -/
def flagCond (a b : MerchantSummary) : Bool :=
  decide (a.monthly_cost ≠ 0 ∧ b.monthly_cost ≠ 0 ∧
    |a.monthly_cost - b.monthly_cost| / max a.monthly_cost b.monthly_cost ≤ OVERLAP_TOLERANCE)

/-- The flags produced by the nested pair loops over one category group. -/
def pairFlags (group : List MerchantSummary) : List OverlapWarning :=
  (allPairs group).filterMap
    (fun p => if flagCond p.1 p.2 then some (mkOverlap p.1 p.2) else none)

/-- `detect_overlaps` from `analyzer.py`: group the non-`"Other"` summaries
by category (`defaultdict` insertion semantics), skip groups of size < 2,
and flag every in-tolerance pair inside a group. -/
def detect_overlaps (merchant_summaries : List MerchantSummary) : List OverlapWarning :=
  let by_category :=
    groupByKey MerchantSummary.category
      (merchant_summaries.filter (fun m => decide (m.category ≠ "Other")))
  by_category.flatMap (fun g => if g.2.length < 2 then [] else pairFlags g.2)

/-- The exact flagging condition of the inner loop of `detect_overlaps`, as
a predicate on two summaries: same non-`"Other"` category, both costs
nonzero, and relative price difference within the 30% tolerance. -/
def shouldFlag (a b : MerchantSummary) : Prop :=
  a.category = b.category ∧ a.category ≠ "Other" ∧
  a.monthly_cost ≠ 0 ∧ b.monthly_cost ≠ 0 ∧
  |a.monthly_cost - b.monthly_cost| / max a.monthly_cost b.monthly_cost ≤ OVERLAP_TOLERANCE

/-- The pair of merchants `A`, `B` is flagged (in either orientation) in the
output of `detect_overlaps`. -/
def flaggedPair (l : List MerchantSummary) (A B : String) : Prop :=
  ∃ o ∈ detect_overlaps l,
    (o.merchant_a = A ∧ o.merchant_b = B) ∨ (o.merchant_a = B ∧ o.merchant_b = A)

/-- One entry of `upcoming_renewals_30d`. -/
structure RenewalEntry where
  merchant : String
  amount : ℚ
  currency : String
  renewal_date : ℤ
  days_until : ℤ
deriving DecidableEq

/-- `upcoming_renewals` from `analyzer.py` with its default `days=30`
horizon.  The source re-parses `m["next_renewal"]` with a guarded
`fromisoformat`, which always succeeds on a value produced by
`predict_next_renewal`; here the day number is used directly. -/
def upcoming_renewals (merchant_summaries : List MerchantSummary) (today : ℤ) :
    List RenewalEntry :=
  let horizon := today + 30
  let upcoming := merchant_summaries.filterMap (fun m =>
    match m.next_renewal with
    | none => none
    | some d =>
      if today ≤ d ∧ d ≤ horizon then
        some { merchant := m.merchant, amount := m.avg_amount, currency := m.currency,
               renewal_date := d, days_until := d - today }
      else none)
  upcoming.mergeSort (fun x y => decide (x.days_until ≤ y.days_until))

/-- One entry of `recently_cancelled`.  `cancelled_date` is `none` when no
cancelled record of the merchant has a parseable date (the source's `None`). -/
structure CancelledEntry where
  merchant : String
  category : String
  cancelled_date : Option ℤ
  last_amount : Option ℚ
  currency : String
deriving DecidableEq

/-- The comparison on sort keys used for `recently_cancelled`: the source
compares `x["cancelled_date"] or ""` as strings, so a missing date (`""`)
sorts below every ISO date string, and ISO strings compare chronologically. -/
def cancelKeyLE (a b : Option ℤ) : Bool :=
  match a, b with
  | none, _ => true
  | some _, none => false
  | some x, some y => decide (x ≤ y)

/-- The record predicate for the cancelled partition:
`r.get("status") == "cancelled"`. -/
def isCancelled (r : ChargeRecord) : Bool := decide (r.status = some "cancelled")

/-- The `recently_cancelled` block of `run_analysis`: for every cancelled
merchant group whose merchant has no active record, build an entry (max
parseable date, first truthy amount, first record's currency) and sort by
cancelled date descending, missing dates last. -/
def recently_cancelled_list (records : List ChargeRecord) : List CancelledEntry :=
  let active := records.filter (fun r => !isCancelled r)
  let activeMerchants := active.map ChargeRecord.merchant
  let cancelledGroups := groupByKey ChargeRecord.merchant (records.filter isCancelled)
  let entries := cancelledGroups.filterMap (fun g =>
    if g.1 ∈ activeMerchants then none
    else
      some { merchant := g.1
             category := categorize g.1
             cancelled_date := (g.2.filterMap ChargeRecord.date).max?
             last_amount :=
               ((g.2.filterMap ChargeRecord.amount).filter (fun a => decide (a ≠ 0))).head?
             currency := (g.2.head?.bind ChargeRecord.currency).getD "USD" })
  entries.mergeSort (fun x y => cancelKeyLE y.cancelled_date x.cancelled_date)

/-- Associative-list update with Python `defaultdict(float)` read-then-round
semantics: `d[k] = round(d[k] + v, 2)` with a missing key read as `0`. -/
def updateAssoc : List (String × ℚ) → String → ℚ → List (String × ℚ)
  | [], c, v => [(c, round2 (0 + v))]
  | (k, x) :: rest, c, v =>
    if k = c then (k, round2 (x + v)) :: rest else (k, x) :: updateAssoc rest c v

/-- Lookup in an associative list (Python `dict` access / `.get`). -/
def lookupAssoc (c : String) : List (String × ℚ) → Option ℚ
  | [] => none
  | (k, x) :: rest => if k = c then some x else lookupAssoc c rest

/-- The `spend_by_currency` accumulation of `run_analysis`. -/
def spend_by_currency_list (merchant_summaries : List MerchantSummary) : List (String × ℚ) :=
  merchant_summaries.foldl (fun acc m => updateAssoc acc m.currency m.monthly_cost) []

/-- The nested `monthly_by_currency` update of the trend block:
`d[currency][month] = round(d[currency].get(month, 0) + amount, 2)`. -/
def updateTrend (acc : List (String × List (String × ℚ))) (cur month : String) (amt : ℚ) :
    List (String × List (String × ℚ)) :=
  match acc with
  | [] => [(cur, updateAssoc [] month amt)]
  | (k, inner) :: rest =>
    if k = cur then (k, updateAssoc inner month amt) :: rest
    else (k, inner) :: updateTrend rest cur month amt

/-- The monthly-trend block of `run_analysis`: active records only, bucketed
by `(currency, r["date"][:7])`, summed with per-step rounding, and each
currency's series sorted by month string ascending. -/
def monthly_trend_list (records : List ChargeRecord) : List (String × List (String × ℚ)) :=
  let buckets := records.foldl (fun acc r =>
    if isCancelled r then acc
    else
      match r.dateRaw with
      | none => acc
      | some ds =>
        updateTrend acc (r.currency.getD "USD") (ds.take 7) (r.amount.getD 0)) []
  buckets.map (fun g => (g.1, g.2.mergeSort (fun a b => decide (a.1 < b.1) || decide (a.1 = b.1))))

/-- The category-breakdown block of `run_analysis`: `monthly_cost` summed per
category with per-step rounding, sorted by cost descending (the source sorts
ascending on the negated cost). -/
def category_breakdown_list (merchant_summaries : List MerchantSummary) : List (String × ℚ) :=
  let cat_spend := merchant_summaries.foldl
    (fun acc m => updateAssoc acc m.category m.monthly_cost) []
  cat_spend.mergeSort (fun a b => decide (b.2 ≤ a.2))

/-- The report dict of `run_analysis`.  The four `Option` fields model keys
that are present in the main branch but absent from the empty-store branch
of the source; `generated_at` is the caller-visible timestamp string. -/
structure Report where
  generated_at : String
  total_records : ℕ
  merchant_count : ℕ
  total_monthly_spend : ℚ
  total_yearly_spend : ℚ
  potential_monthly_savings : ℚ
  merchants : List MerchantSummary
  overlaps : List OverlapWarning
  forgotten_subscriptions : List MerchantSummary
  upcoming_renewals_30d : List RenewalEntry
  spend_by_currency : Option (List (String × ℚ))
  recently_cancelled : Option (List CancelledEntry)
  monthly_trend : Option (List (String × List (String × ℚ)))
  category_breakdown : Option (List (String × ℚ))
deriving DecidableEq

/-- `run_analysis` from `analyzer.py`.  `records` is the loaded store
(`load_subscriptions` yields `[]` for a missing/empty file), `today` stands
for `date.today()` and `now` for the `datetime.utcnow().isoformat()`
timestamp. -/
def run_analysis (records : List ChargeRecord) (today : ℤ) (now : String) : Report :=
  match records with
  | [] =>
    { generated_at := now
      total_records := 0
      merchant_count := 0
      total_monthly_spend := 0
      total_yearly_spend := 0
      potential_monthly_savings := 0
      merchants := []
      overlaps := []
      forgotten_subscriptions := []
      upcoming_renewals_30d := []
      spend_by_currency := none
      recently_cancelled := none
      monthly_trend := none
      category_breakdown := none }
  | _ :: _ =>
    let active := records.filter (fun r => !isCancelled r)
    let merchant_summaries :=
      ((groupByKey ChargeRecord.merchant active).map
        (fun g => analyze_merchant g.1 g.2 today)).mergeSort
        (fun a b => decide (b.monthly_cost ≤ a.monthly_cost))
    let spend := spend_by_currency_list merchant_summaries
    let total_monthly := (lookupAssoc "USD" spend).getD 0
    let total_yearly := round2 (total_monthly * 12)
    let overlaps := detect_overlaps merchant_summaries
    let potential_savings := round2 ((overlaps.map OverlapWarning.potential_savings).sum)
    let forgotten := merchant_summaries.filter MerchantSummary.is_forgotten
    let renewals := upcoming_renewals merchant_summaries today
    { generated_at := now
      total_records := records.length
      merchant_count := merchant_summaries.length
      total_monthly_spend := total_monthly
      total_yearly_spend := total_yearly
      potential_monthly_savings := potential_savings
      merchants := merchant_summaries
      overlaps := overlaps
      forgotten_subscriptions := forgotten
      upcoming_renewals_30d := renewals
      spend_by_currency := some spend
      recently_cancelled := some (recently_cancelled_list records)
      monthly_trend := some (monthly_trend_list records)
      category_breakdown := some (category_breakdown_list merchant_summaries) }

/-- A rational that is a whole number of hundredths, i.e. a possible result
of `round(x, 2)`. -/
def isHundredths (q : ℚ) : Prop := ∃ n : ℤ, q = (n : ℚ) / 100

/-- A concrete malformed store record: active status, unparseable date,
null amount. -/
def sampleBadRecord : ChargeRecord :=
  { merchant := "Mystery", amount := none, currency := none, date := none,
    dateRaw := some "not-a-date", status := some "active" }

/-- A concrete cancelled store record. -/
def sampleCancelledRecord : ChargeRecord :=
  { merchant := "OldSub", amount := some 5, currency := some "USD",
    date := some 100, dateRaw := some "2024-01-01", status := some "cancelled" }

/-- A concrete summary: an AI tool at $20/month. -/
def sampleSummaryA : MerchantSummary :=
  { merchant := "OpenAI", category := "AI Tools", charge_count := 1, avg_amount := 20,
    currency := "USD", frequency := some Freq.monthly, monthly_cost := 20, yearly_cost := 240,
    last_charge := none, days_since_last := none, next_renewal := none, dates := [],
    is_forgotten := false }

/-- A concrete summary: an AI tool at $18/month. -/
def sampleSummaryB : MerchantSummary :=
  { merchant := "Anthropic", category := "AI Tools", charge_count := 1, avg_amount := 18,
    currency := "USD", frequency := some Freq.monthly, monthly_cost := 18, yearly_cost := 216,
    last_charge := none, days_since_last := none, next_renewal := none, dates := [],
    is_forgotten := false }

/-! ### Lemmas about rounding -/

theorem roundHalfEven_intCast (n : ℤ) : roundHalfEven (n : ℚ) = n := by
  unfold roundHalfEven
  simp only [Int.floor_intCast, sub_self]
  norm_num

theorem roundHalfEven_nonneg {q : ℚ} (h : 0 ≤ q) : 0 ≤ roundHalfEven q := by
  have hf : (0 : ℤ) ≤ ⌊q⌋ := Int.floor_nonneg.mpr h
  unfold roundHalfEven
  split_ifs <;> omega

theorem round2_int_div_100 (n : ℤ) : round2 ((n : ℚ) / 100) = (n : ℚ) / 100 := by
  unfold round2
  rw [div_mul_cancel₀ _ (by norm_num : (100 : ℚ) ≠ 0), roundHalfEven_intCast]

theorem isHundredths_round2 (q : ℚ) : isHundredths (round2 q) :=
  ⟨roundHalfEven (q * 100), rfl⟩

theorem isHundredths_zero : isHundredths 0 := ⟨0, by norm_num⟩

theorem isHundredths_add {a b : ℚ} (ha : isHundredths a) (hb : isHundredths b) :
    isHundredths (a + b) := by
  obtain ⟨n, rfl⟩ := ha
  obtain ⟨m, rfl⟩ := hb
  exact ⟨n + m, by push_cast; ring⟩

theorem round2_of_isHundredths {q : ℚ} (h : isHundredths q) : round2 q = q := by
  obtain ⟨n, rfl⟩ := h
  exact round2_int_div_100 n

theorem round2_mul12_of_isHundredths {q : ℚ} (h : isHundredths q) :
    round2 (q * 12) = q * 12 := by
  obtain ⟨n, rfl⟩ := h
  have h12 : ((n : ℚ) / 100) * 12 = ((12 * n : ℤ) : ℚ) / 100 := by push_cast; ring
  rw [h12, round2_int_div_100]

theorem round2_nonneg {q : ℚ} (h : 0 ≤ q) : 0 ≤ round2 q := by
  unfold round2
  have : (0 : ℤ) ≤ roundHalfEven (q * 100) := roundHalfEven_nonneg (by positivity)
  positivity

/-! ### Lemmas about gaps and maxima -/

theorem consecutiveGaps_eq_zipWith :
    ∀ ds : List ℤ, List.zipWith (fun a b => a - b) ds.tail ds = consecutiveGaps ds
  | [] => rfl
  | [_] => rfl
  | a :: b :: t => congrArg (List.cons (b - a)) (consecutiveGaps_eq_zipWith (b :: t))

theorem intList_max?_spec {ds : List ℤ} (h : ds ≠ []) :
    ∃ last, ds.max? = some last ∧ last ∈ ds ∧ ∀ d ∈ ds, d ≤ last := by
  haveI : Std.Antisymm (fun a b : ℤ => a ≤ b) := ⟨fun hx hy => le_antisymm hx hy⟩
  cases hm : ds.max? with
  | none =>
    cases ds with
    | nil => exact absurd rfl h
    | cons a t => simp [List.max?] at hm
  | some a =>
    have := (List.max?_eq_some_iff le_refl max_choice (fun _ _ _ => max_le_iff)).mp hm
    exact ⟨a, rfl, this.1, this.2⟩

theorem predict_next_renewal_none (ds : List ℤ) : predict_next_renewal ds none = none := by
  unfold predict_next_renewal
  cases ds.max? <;> rfl

/-! ### Claim theorems C3, C4, C5 -/

/-- C3: for every sorted date list, `detect_frequency` returns unknown
(`none`) when the list has fewer than 2 dates, and otherwise classifies the
arithmetic mean of the consecutive-day gaps by the inclusive bands
`[25,35] ↦ monthly`, `[80,100] ↦ quarterly`, `[340,390] ↦ yearly`, anything
else unknown. -/
theorem detect_frequency_band_spec (ds : List ℤ) (_hs : List.Sorted (· ≤ ·) ds) :
    (ds.length < 2 → detect_frequency ds = none) ∧
    (2 ≤ ds.length →
      detect_frequency ds =
        (let μ : ℚ := ((consecutiveGaps ds).sum : ℚ) / ((consecutiveGaps ds).length : ℚ)
         if 25 ≤ μ ∧ μ ≤ 35 then some Freq.monthly
         else if 80 ≤ μ ∧ μ ≤ 100 then some Freq.quarterly
         else if 340 ≤ μ ∧ μ ≤ 390 then some Freq.yearly
         else none)) := by
  constructor
  · intro h
    unfold detect_frequency
    rw [if_pos h]
  · intro h
    unfold detect_frequency
    rw [if_neg (by omega)]
    simp only [consecutiveGaps_eq_zipWith]

/-- Witness for C3 at the concrete sorted series `[0, 30, 61]`. -/
theorem detect_frequency_band_spec_witness :
    List.Sorted (· ≤ ·) [(0 : ℤ), 30, 61] ∧ detect_frequency [(0 : ℤ), 30, 61] = some Freq.monthly := by
  refine ⟨by decide, ?_⟩
  have h := (detect_frequency_band_spec [(0 : ℤ), 30, 61] (by decide)).2 (by decide)
  rw [h]
  norm_num [consecutiveGaps]

/-- C4: `predict_next_renewal` yields no prediction on an empty date list or
an unknown frequency; otherwise it adds exactly 30/91/365 days to the
maximum observed date; and a merchant with fewer than 2 parseable charge
dates gets `frequency = none` and `next_renewal = none` from
`analyze_merchant`. -/
theorem predict_next_renewal_spec :
    (∀ (ds : List ℤ) (fq : Option Freq),
      ds = [] ∨ fq = none → predict_next_renewal ds fq = none) ∧
    (∀ (ds : List ℤ) (f : Freq), ds ≠ [] →
      ∃ last, ds.max? = some last ∧ last ∈ ds ∧ (∀ d ∈ ds, d ≤ last) ∧
        predict_next_renewal ds (some f) = some (last + renewalOffset f)) ∧
    (∀ (m : String) (records : List ChargeRecord) (today : ℤ),
      (records.filterMap ChargeRecord.date).length < 2 →
        (analyze_merchant m records today).frequency = none ∧
        (analyze_merchant m records today).next_renewal = none) := by
  refine ⟨?_, ?_, ?_⟩
  · rintro ds fq (rfl | rfl)
    · unfold predict_next_renewal
      cases fq <;> rfl
    · exact predict_next_renewal_none ds
  · intro ds f hne
    obtain ⟨last, hm, hmem, hub⟩ := intList_max?_spec hne
    refine ⟨last, hm, hmem, hub, ?_⟩
    unfold predict_next_renewal
    rw [hm]
    cases f <;> rfl
  · intro m records today hlen
    have hperm := List.mergeSort_perm (records.filterMap ChargeRecord.date)
      (fun a b => decide (a ≤ b))
    have hlen2 :
        ((records.filterMap ChargeRecord.date).mergeSort (fun a b => decide (a ≤ b))).length < 2 := by
      rw [hperm.length_eq]
      exact hlen
    have hfreq :
        detect_frequency
          ((records.filterMap ChargeRecord.date).mergeSort (fun a b => decide (a ≤ b))) = none := by
      unfold detect_frequency
      rw [if_pos hlen2]
    constructor
    · show detect_frequency _ = none
      exact hfreq
    · show predict_next_renewal _ (detect_frequency _) = none
      rw [hfreq]
      exact predict_next_renewal_none _

/-- Witness for C4 at the concrete inputs `ds = [5]`, `f = monthly`, and a
record list with a single parseable date. -/
theorem predict_next_renewal_spec_witness :
    predict_next_renewal [] (some Freq.monthly) = none ∧
    predict_next_renewal [(5 : ℤ)] (some Freq.monthly) = some 35 ∧
    (analyze_merchant "X"
      [{ merchant := "X", amount := none, currency := none, date := some 5,
         dateRaw := none, status := none }] 10).next_renewal = none := by
  refine ⟨predict_next_renewal_spec.1 [] (some Freq.monthly) (Or.inl rfl), ?_, ?_⟩
  · obtain ⟨last, hm, hmem, _, hp⟩ :=
      predict_next_renewal_spec.2.1 [(5 : ℤ)] Freq.monthly (by decide)
    have : last = 5 := by
      cases hmem with
      | head => rfl
      | tail _ h => cases h
    rw [hp, this]
    rfl
  · exact (predict_next_renewal_spec.2.2 "X"
      [{ merchant := "X", amount := none, currency := none, date := some 5,
         dateRaw := none, status := none }] 10 (by decide)).2

/-- C5: in every summary of `analyze_merchant`, `monthly_cost` is
`avg_amount` divided by 12 (rounded) for yearly, divided by 3 (rounded) for
quarterly, and `avg_amount` unchanged otherwise; and `yearly_cost` equals
`monthly_cost * 12` exactly (the source's final rounding is the identity on
a value that is a whole number of hundredths). -/
theorem monthly_yearly_cost_spec (m : String) (records : List ChargeRecord) (today : ℤ) :
    ((analyze_merchant m records today).monthly_cost =
      match (analyze_merchant m records today).frequency with
      | some Freq.yearly => round2 ((analyze_merchant m records today).avg_amount / 12)
      | some Freq.quarterly => round2 ((analyze_merchant m records today).avg_amount / 3)
      | _ => (analyze_merchant m records today).avg_amount) ∧
    (analyze_merchant m records today).yearly_cost =
      (analyze_merchant m records today).monthly_cost * 12 := by
  have havg : isHundredths (analyze_merchant m records today).avg_amount := by
    show isHundredths (if _ then _ else _)
    split_ifs
    · exact isHundredths_zero
    · exact isHundredths_round2 _
  have hmc : isHundredths (analyze_merchant m records today).monthly_cost := by
    show isHundredths (match detect_frequency _ with
      | some Freq.yearly => round2 _
      | some Freq.quarterly => round2 _
      | _ => _)
    rcases detect_frequency _ with _ | f
    · exact havg
    · cases f
      · exact havg
      · exact isHundredths_round2 _
      · exact isHundredths_round2 _
  refine ⟨rfl, ?_⟩
  show round2 ((analyze_merchant m records today).monthly_cost * 12) = _
  exact round2_mul12_of_isHundredths hmc

/-! ### Lemmas about grouping -/

theorem dedupFirst_mem [DecidableEq κ] (c : κ) :
    ∀ xs : List κ, c ∈ dedupFirst xs ↔ c ∈ xs
  | [] => by rw [dedupFirst]
  | k :: ks => by
    have ih := dedupFirst_mem c (ks.filter (fun x => decide (x ≠ k)))
    rw [dedupFirst]
    simp only [List.mem_cons, ih, List.mem_filter, decide_eq_true_eq]
    constructor
    · rintro (rfl | ⟨h, _⟩)
      · exact Or.inl rfl
      · exact Or.inr h
    · rintro (rfl | h)
      · exact Or.inl rfl
      · by_cases hck : c = k
        · exact Or.inl hck
        · exact Or.inr ⟨h, hck⟩
termination_by xs => xs.length
decreasing_by
  exact Nat.lt_succ_of_le (List.length_filter_le _ _)

theorem dedupFirst_nodup [DecidableEq κ] : ∀ xs : List κ, (dedupFirst xs).Nodup
  | [] => by
    rw [dedupFirst]
    exact List.nodup_nil
  | k :: ks => by
    have ih := dedupFirst_nodup (ks.filter (fun x => decide (x ≠ k)))
    rw [dedupFirst]
    refine List.nodup_cons.mpr ⟨?_, ih⟩
    intro hk
    rw [dedupFirst_mem] at hk
    simp [List.mem_filter] at hk
termination_by xs => xs.length
decreasing_by
  exact Nat.lt_succ_of_le (List.length_filter_le _ _)

theorem mem_groupByKey [DecidableEq κ] {key : α → κ} {l : List α} {p : κ × List α} :
    p ∈ groupByKey key l ↔
      p.1 ∈ l.map key ∧ p.2 = l.filter (fun x => decide (key x = p.1)) := by
  unfold groupByKey
  rw [List.mem_map]
  constructor
  · rintro ⟨k, hk, rfl⟩
    exact ⟨(dedupFirst_mem _ _).mp hk, rfl⟩
  · rintro ⟨h1, h2⟩
    refine ⟨p.1, (dedupFirst_mem _ _).mpr h1, ?_⟩
    cases p
    simp_all

theorem groupByKey_keys [DecidableEq κ] (key : α → κ) (l : List α) :
    (groupByKey key l).map Prod.fst = dedupFirst (l.map key) := by
  unfold groupByKey
  rw [List.map_map]
  exact List.map_id _

/-- A merchant group with no parseable date and no non-null amount is still
summarized, with every derived field zero or null. -/
theorem analyze_merchant_null_fields (m : String) (recs : List ChargeRecord) (today : ℤ)
    (h1 : ∀ r ∈ recs, r.date = none) (h2 : ∀ r ∈ recs, r.amount = none) :
    (analyze_merchant m recs today).merchant = m ∧
    (analyze_merchant m recs today).avg_amount = 0 ∧
    (analyze_merchant m recs today).monthly_cost = 0 ∧
    (analyze_merchant m recs today).yearly_cost = 0 ∧
    (analyze_merchant m recs today).frequency = none ∧
    (analyze_merchant m recs today).last_charge = none ∧
    (analyze_merchant m recs today).days_since_last = none ∧
    (analyze_merchant m recs today).next_renewal = none ∧
    (analyze_merchant m recs today).dates = [] ∧
    (analyze_merchant m recs today).is_forgotten = false := by
  have hd : recs.filterMap ChargeRecord.date = [] := List.filterMap_eq_nil_iff.mpr h1
  have ha : recs.filterMap ChargeRecord.amount = [] := List.filterMap_eq_nil_iff.mpr h2
  have hzero : round2 0 = 0 := round2_of_isHundredths isHundredths_zero
  refine ⟨rfl, ?_, ?_, ?_, ?_, ?_, ?_, ?_, ?_, ?_⟩ <;>
    simp [analyze_merchant, hd, ha, detect_frequency, predict_next_renewal, hzero]

/-! ### Claim theorems C1, C2, C9 -/

/-- C1: unusable data never aborts the pipeline (every function of the
embedding is total by construction); every merchant with at least one active
record appears in the report's merchants list via the summary of its group;
and a merchant group whose dates are all unparseable and whose amounts are
all null is summarized with zero/null derived fields rather than dropped. -/
theorem malformed_input_spec (records : List ChargeRecord) (today : ℤ) (now : String) :
    (∀ r ∈ records, ¬ r.status = some "cancelled" →
      analyze_merchant r.merchant
        ((records.filter (fun x => !isCancelled x)).filter
          (fun x => decide (x.merchant = r.merchant))) today
        ∈ (run_analysis records today now).merchants) ∧
    (∀ (m : String) (recs : List ChargeRecord),
      (∀ r ∈ recs, r.date = none) → (∀ r ∈ recs, r.amount = none) →
        (analyze_merchant m recs today).merchant = m ∧
        (analyze_merchant m recs today).avg_amount = 0 ∧
        (analyze_merchant m recs today).monthly_cost = 0 ∧
        (analyze_merchant m recs today).yearly_cost = 0 ∧
        (analyze_merchant m recs today).frequency = none ∧
        (analyze_merchant m recs today).last_charge = none ∧
        (analyze_merchant m recs today).days_since_last = none ∧
        (analyze_merchant m recs today).next_renewal = none ∧
        (analyze_merchant m recs today).dates = [] ∧
        (analyze_merchant m recs today).is_forgotten = false) := by
  constructor
  · intro r hr hact
    match records, hr with
    | r0 :: rs, hr =>
      show _ ∈ List.mergeSort _ _
      rw [(List.mergeSort_perm _ _).mem_iff, List.mem_map]
      refine ⟨(r.merchant,
        ((r0 :: rs).filter (fun x => !isCancelled x)).filter
          (fun x => decide (x.merchant = r.merchant))), ?_, rfl⟩
      rw [mem_groupByKey]
      refine ⟨?_, rfl⟩
      rw [List.mem_map]
      refine ⟨r, ?_, rfl⟩
      rw [List.mem_filter]
      exact ⟨hr, by simp [isCancelled, hact]⟩
  · intro m recs h1 h2
    exact analyze_merchant_null_fields m recs today h1 h2

/-- Witness for C1 at a one-record store whose record has an unparseable
date and a null amount: the merchant still appears, with zero/null fields. -/
theorem malformed_input_spec_witness :
    (¬ sampleBadRecord.status = some "cancelled") ∧
    analyze_merchant sampleBadRecord.merchant
      (([sampleBadRecord].filter (fun x => !isCancelled x)).filter
        (fun x => decide (x.merchant = sampleBadRecord.merchant))) 0
      ∈ (run_analysis [sampleBadRecord] 0 "t").merchants ∧
    (analyze_merchant "Mystery" [sampleBadRecord] 0).monthly_cost = 0 ∧
    (analyze_merchant "Mystery" [sampleBadRecord] 0).next_renewal = none := by
  have h := malformed_input_spec [sampleBadRecord] 0 "t"
  have h2 := h.2 "Mystery" [sampleBadRecord] (by decide) (by decide)
  exact ⟨by decide, h.1 sampleBadRecord (List.mem_singleton_self _) (by decide),
    h2.2.2.1, h2.2.2.2.2.2.2.2.1⟩

/-! ### Lemmas about pairs, sublists and the overlap detector -/

theorem pair_sublist_cons {a b x : α} {xs : List α} :
    [a, b].Sublist (x :: xs) ↔ (a = x ∧ b ∈ xs) ∨ [a, b].Sublist xs := by
  constructor
  · intro h
    cases h with
    | cons _ h' => exact Or.inr h'
    | cons₂ _ h' => exact Or.inl ⟨rfl, List.singleton_sublist.mp h'⟩
  · rintro (⟨rfl, hb⟩ | h)
    · exact (List.singleton_sublist.mpr hb).cons₂ _
    · exact h.cons _

theorem mem_allPairs {xs : List α} {p : α × α} :
    p ∈ allPairs xs ↔ [p.1, p.2].Sublist xs := by
  induction xs with
  | nil =>
    simp only [allPairs, List.not_mem_nil, false_iff]
    intro h
    simp at h
  | cons x xs ih =>
    rw [allPairs, List.mem_append, List.mem_map, ih, pair_sublist_cons]
    constructor
    · rintro (⟨y, hy, rfl⟩ | h)
      · exact Or.inl ⟨rfl, hy⟩
      · exact Or.inr h
    · rintro (⟨h1, h2⟩ | h)
      · cases p
        cases h1
        exact Or.inl ⟨_, h2, rfl⟩
      · exact Or.inr h

theorem pair_sublist_filter {a b : α} {l : List α} {p : α → Bool} :
    [a, b].Sublist (l.filter p) ↔ [a, b].Sublist l ∧ p a = true ∧ p b = true := by
  constructor
  · intro h
    refine ⟨h.trans (List.filter_sublist l), ?_, ?_⟩
    · exact (List.mem_filter.mp (h.subset (by simp))).2
    · exact (List.mem_filter.mp (h.subset (by simp))).2
  · rintro ⟨h, ha, hb⟩
    have := List.Sublist.filter p h
    rwa [List.filter_cons_of_pos ha, List.filter_cons_of_pos hb, List.filter_nil] at this

theorem mem_pairFlags {g : List MerchantSummary} {o : OverlapWarning} :
    o ∈ pairFlags g ↔
      ∃ a b, [a, b].Sublist g ∧ flagCond a b = true ∧ o = mkOverlap a b := by
  rw [pairFlags, List.mem_filterMap]
  constructor
  · rintro ⟨p, hp, hite⟩
    rw [mem_allPairs] at hp
    by_cases h : flagCond p.1 p.2
    · rw [if_pos h] at hite
      exact ⟨p.1, p.2, hp, h, (Option.some_inj.mp hite).symm⟩
    · rw [if_neg h] at hite
      cases hite
  · rintro ⟨a, b, hs, hc, rfl⟩
    exact ⟨(a, b), mem_allPairs.mpr hs, by rw [if_pos hc]⟩

theorem mem_detect_overlaps {l : List MerchantSummary} {o : OverlapWarning} :
    o ∈ detect_overlaps l ↔
      ∃ a b, [a, b].Sublist l ∧ shouldFlag a b ∧ o = mkOverlap a b := by
  have hflag : ∀ a b : MerchantSummary,
      flagCond a b = true ↔
        (a.monthly_cost ≠ 0 ∧ b.monthly_cost ≠ 0 ∧
          |a.monthly_cost - b.monthly_cost| / max a.monthly_cost b.monthly_cost ≤
            OVERLAP_TOLERANCE) := by
    intro a b
    rw [flagCond, decide_eq_true_eq]
  have hite : ∀ g : List MerchantSummary,
      o ∈ (if g.length < 2 then ([] : List OverlapWarning) else pairFlags g) ↔
        o ∈ pairFlags g := by
    intro g
    split_ifs with hlen
    · simp only [List.not_mem_nil, false_iff]
      intro ho
      obtain ⟨a, b, hs, -, -⟩ := mem_pairFlags.mp ho
      have := hs.length_le
      simp at this
      omega
    · exact Iff.rfl
  unfold detect_overlaps
  rw [List.mem_flatMap]
  constructor
  · rintro ⟨g, hg, ho⟩
    rw [hite] at ho
    obtain ⟨hk, hg2⟩ := mem_groupByKey.mp hg
    obtain ⟨a, b, hs, hc, rfl⟩ := mem_pairFlags.mp ho
    rw [hg2] at hs
    obtain ⟨hs1, ha1, hb1⟩ := pair_sublist_filter.mp hs
    obtain ⟨hs0, ha0, hb0⟩ := pair_sublist_filter.mp hs1
    rw [decide_eq_true_eq] at ha1 hb1 ha0 hb0
    refine ⟨a, b, hs0, ⟨ha1.trans hb1.symm, ?_, (hflag a b).mp hc⟩, rfl⟩
    intro hcat
    exact ha0 hcat
  · rintro ⟨a, b, hs, hf, rfl⟩
    obtain ⟨hcat, hother, hcosts⟩ := hf
    have hbother : b.category ≠ "Other" := hcat ▸ hother
    have haF : a ∈ l.filter (fun m => decide (m.category ≠ "Other")) :=
      List.mem_filter.mpr ⟨hs.subset (by simp), by rw [decide_eq_true_eq]; exact hother⟩
    have hsF : [a, b].Sublist (l.filter (fun m => decide (m.category ≠ "Other"))) :=
      pair_sublist_filter.mpr ⟨hs, by rw [decide_eq_true_eq]; exact hother,
        by rw [decide_eq_true_eq]; exact hbother⟩
    refine ⟨(a.category,
      (l.filter (fun m => decide (m.category ≠ "Other"))).filter
        (fun x => decide (x.category = a.category))), ?_, ?_⟩
    · rw [mem_groupByKey]
      exact ⟨List.mem_map.mpr ⟨a, haF, rfl⟩, rfl⟩
    · rw [hite, mem_pairFlags]
      refine ⟨a, b, ?_, (hflag a b).mpr hcosts, rfl⟩
      exact pair_sublist_filter.mpr ⟨hsF, by rw [decide_eq_true_eq],
        by rw [decide_eq_true_eq]; exact hcat.symm⟩

theorem shouldFlag_symm {a b : MerchantSummary} (h : shouldFlag a b) : shouldFlag b a := by
  obtain ⟨h1, h2, h3, h4, h5⟩ := h
  exact ⟨h1.symm, h1 ▸ h2, h4, h3, by rwa [abs_sub_comm, max_comm]⟩

theorem perm_pair_cases {w : List α} {a b : α} (h : w.Perm [a, b]) :
    w = [a, b] ∨ w = [b, a] := by
  obtain ⟨x, y, rfl⟩ : ∃ x y, w = [x, y] := by
    cases w with
    | nil => simpa using h.length_eq
    | cons x t =>
      cases t with
      | nil => simpa using h.length_eq
      | cons y t' =>
        cases t' with
        | nil => exact ⟨x, y, rfl⟩
        | cons z t'' => simpa using h.length_eq
  have hx : x ∈ [a, b] := h.mem_iff.mp (by simp)
  simp only [List.mem_cons, List.not_mem_nil, or_false] at hx
  cases hx with
  | inl hxa =>
    left
    rw [hxa] at h ⊢
    have h2 := List.perm_singleton.mp h.cons_inv
    simp only [List.cons.injEq, and_true] at h2
    rw [h2]
  | inr hxb =>
    right
    rw [hxb] at h ⊢
    have h' := h.trans (List.Perm.swap b a [])
    have h2 := List.perm_singleton.mp h'.cons_inv
    simp only [List.cons.injEq, and_true] at h2
    rw [h2]

theorem flaggedPair_iff {l : List MerchantSummary} {A B : String} :
    flaggedPair l A B ↔
      ∃ a b, [a, b].Subperm l ∧ shouldFlag a b ∧
        ((a.merchant = A ∧ b.merchant = B) ∨ (a.merchant = B ∧ b.merchant = A)) := by
  constructor
  · rintro ⟨o, ho, hor⟩
    obtain ⟨a, b, hs, hf, rfl⟩ := mem_detect_overlaps.mp ho
    exact ⟨a, b, hs.subperm, hf, hor⟩
  · rintro ⟨a, b, hsp, hf, hor⟩
    obtain ⟨w, hw, hwl⟩ := hsp
    cases perm_pair_cases hw with
    | inl hab =>
      subst hab
      exact ⟨mkOverlap a b, mem_detect_overlaps.mpr ⟨a, b, hwl, hf, rfl⟩, hor⟩
    | inr hba =>
      subst hba
      refine ⟨mkOverlap b a, mem_detect_overlaps.mpr ⟨b, a, hwl, shouldFlag_symm hf, rfl⟩, ?_⟩
      cases hor with
      | inl h => exact Or.inr ⟨h.2, h.1⟩
      | inr h => exact Or.inl ⟨h.2, h.1⟩

/-- C6: overlap flagging is symmetric and input-order independent; flagged
pairs come from two distinct list positions with the same non-`"Other"`
category; pairs with a zero `monthly_cost` on either side are skipped (so
the relative-difference division never sees a zero denominator); a pair is
flagged exactly when the relative difference is ≤ 0.30, with
`potential_savings` the smaller cost. -/
theorem detect_overlaps_spec (l l' : List MerchantSummary) (hp : l.Perm l') :
    (∀ o, o ∈ detect_overlaps l ↔
      ∃ a b, [a, b].Sublist l ∧ shouldFlag a b ∧ o = mkOverlap a b) ∧
    (∀ A B, flaggedPair l A B ↔ flaggedPair l' A B) ∧
    (∀ A B, flaggedPair l A B ↔ flaggedPair l B A) ∧
    (∀ o ∈ detect_overlaps l,
      o.monthly_cost_a ≠ 0 ∧ o.monthly_cost_b ≠ 0 ∧
      |o.monthly_cost_a - o.monthly_cost_b| / max o.monthly_cost_a o.monthly_cost_b ≤
        OVERLAP_TOLERANCE ∧
      o.potential_savings = min o.monthly_cost_a o.monthly_cost_b) ∧
    ((l.map MerchantSummary.merchant).Nodup →
      ∀ o ∈ detect_overlaps l, o.merchant_a ≠ o.merchant_b) := by
  refine ⟨fun o => mem_detect_overlaps, ?_, ?_, ?_, ?_⟩
  · intro A B
    rw [flaggedPair_iff, flaggedPair_iff]
    constructor <;> rintro ⟨a, b, hsp, hf, hor⟩
    · exact ⟨a, b, (hp.subperm_left).mp hsp, hf, hor⟩
    · exact ⟨a, b, (hp.subperm_left).mpr hsp, hf, hor⟩
  · intro A B
    unfold flaggedPair
    constructor <;> rintro ⟨o, ho, h⟩ <;> exact ⟨o, ho, h.symm⟩
  · intro o ho
    obtain ⟨a, b, -, hf, rfl⟩ := mem_detect_overlaps.mp ho
    exact ⟨hf.2.2.1, hf.2.2.2.1, hf.2.2.2.2, rfl⟩
  · intro hnd o ho heq
    obtain ⟨a, b, hs, -, rfl⟩ := mem_detect_overlaps.mp ho
    have hmap : [a.merchant, b.merchant].Sublist (l.map MerchantSummary.merchant) := by
      have := hs.map MerchantSummary.merchant
      simpa using this
    have hnd2 : ([a.merchant, b.merchant] : List String).Nodup := hmap.nodup hnd
    rw [List.nodup_cons] at hnd2
    exact hnd2.1 (List.mem_singleton.mpr heq)

/-- Witness for C6: a two-summary list and its transposition flag the same
OpenAI/Anthropic pair. -/
theorem detect_overlaps_spec_witness :
    ([sampleSummaryB, sampleSummaryA] : List MerchantSummary).Perm
      [sampleSummaryA, sampleSummaryB] ∧
    (flaggedPair [sampleSummaryB, sampleSummaryA] "OpenAI" "Anthropic" ↔
      flaggedPair [sampleSummaryA, sampleSummaryB] "OpenAI" "Anthropic") := by
  have hperm : ([sampleSummaryB, sampleSummaryA] : List MerchantSummary).Perm
      [sampleSummaryA, sampleSummaryB] := List.Perm.swap sampleSummaryA sampleSummaryB []
  exact ⟨hperm, (detect_overlaps_spec _ _ hperm).2.1 "OpenAI" "Anthropic"⟩

/-! ### Lemmas about the per-currency accumulation -/

theorem lookupAssoc_updateAssoc_self :
    ∀ (acc : List (String × ℚ)) (c : String) (v : ℚ),
      lookupAssoc c (updateAssoc acc c v) =
        some (round2 ((lookupAssoc c acc).getD 0 + v))
  | [], c, v => by simp [updateAssoc, lookupAssoc]
  | (k, x) :: rest, c, v => by
    by_cases hk : k = c
    · subst hk
      simp [updateAssoc, lookupAssoc]
    · simp only [updateAssoc, lookupAssoc, if_neg hk]
      exact lookupAssoc_updateAssoc_self rest c v

theorem lookupAssoc_updateAssoc_other :
    ∀ (acc : List (String × ℚ)) (c c' : String) (v : ℚ), c' ≠ c →
      lookupAssoc c' (updateAssoc acc c v) = lookupAssoc c' acc
  | [], c, c', v, h => by
    show lookupAssoc c' [(c, round2 (0 + v))] = lookupAssoc c' []
    have hcc : ¬ c = c' := fun hh => h hh.symm
    simp only [lookupAssoc, if_neg hcc]
  | (k, x) :: rest, c, c', v, h => by
    by_cases hk : k = c
    · have hkc : ¬ k = c' := fun hh => h (by rw [← hh, hk])
      rw [updateAssoc, if_pos hk]
      simp only [lookupAssoc, if_neg hkc]
    · by_cases hk' : k = c'
      · rw [updateAssoc, if_neg hk]
        simp only [lookupAssoc, if_pos hk']
      · rw [updateAssoc, if_neg hk]
        simp only [lookupAssoc, if_neg hk']
        exact lookupAssoc_updateAssoc_other rest c c' v h

theorem lookupAssoc_mem :
    ∀ (acc : List (String × ℚ)) (c : String) (v : ℚ),
      lookupAssoc c acc = some v → (c, v) ∈ acc
  | [], c, v, h => by cases h
  | (k, x) :: rest, c, v, h => by
    rw [lookupAssoc] at h
    split_ifs at h with hk
    · obtain rfl := Option.some_inj.mp h
      subst hk
      exact List.mem_cons_self _ _
    · exact List.mem_cons_of_mem _ (lookupAssoc_mem rest c v h)

theorem updateAssoc_keys :
    ∀ (acc : List (String × ℚ)) (c : String) (v : ℚ),
      (updateAssoc acc c v).map Prod.fst =
        if c ∈ acc.map Prod.fst then acc.map Prod.fst else acc.map Prod.fst ++ [c]
  | [], c, v => by simp [updateAssoc]
  | (k, x) :: rest, c, v => by
    by_cases hk : k = c
    · subst hk
      simp [updateAssoc]
    · have hne : ¬ c = k := fun h => hk h.symm
      rw [updateAssoc, if_neg hk]
      simp only [List.map_cons, updateAssoc_keys rest c v, List.mem_cons, hne, false_or]
      split_ifs <;> simp

theorem updateAssoc_keys_nodup (acc : List (String × ℚ)) (c : String) (v : ℚ)
    (h : (acc.map Prod.fst).Nodup) : ((updateAssoc acc c v).map Prod.fst).Nodup := by
  rw [updateAssoc_keys]
  split_ifs with hc
  · exact h
  · refine List.nodup_append.mpr ⟨h, List.nodup_singleton _, fun a ha hb => ?_⟩
    rw [List.mem_singleton] at hb
    subst hb
    exact hc ha

theorem updateAssoc_hundredths :
    ∀ (acc : List (String × ℚ)) (c : String) (v : ℚ),
      (∀ p ∈ acc, isHundredths p.2) → ∀ p ∈ updateAssoc acc c v, isHundredths p.2
  | [], c, v, _, p, hp => by
    simp only [updateAssoc, List.mem_singleton] at hp
    subst hp
    exact isHundredths_round2 _
  | (k, x) :: rest, c, v, h, p, hp => by
    by_cases hk : k = c
    · subst hk
      rw [updateAssoc, if_pos rfl] at hp
      rcases List.mem_cons.mp hp with rfl | hmem
      · exact isHundredths_round2 _
      · exact h p (List.mem_cons_of_mem _ hmem)
    · rw [updateAssoc, if_neg hk] at hp
      rcases List.mem_cons.mp hp with rfl | hmem
      · exact h _ (List.mem_cons_self _ _)
      · exact updateAssoc_hundredths rest c v
          (fun q hq => h q (List.mem_cons_of_mem _ hq)) p hmem

theorem assoc_mem_lookup :
    ∀ (acc : List (String × ℚ)), (acc.map Prod.fst).Nodup →
      ∀ p ∈ acc, lookupAssoc p.1 acc = some p.2
  | [], _, p, hp => by cases hp
  | (k, x) :: rest, hnd, p, hp => by
    have hnd' : k ∉ rest.map Prod.fst ∧ (rest.map Prod.fst).Nodup := by
      simpa using hnd
    rcases List.mem_cons.mp hp with rfl | hmem
    · simp [lookupAssoc]
    · have hk : ¬ k = p.1 := by
        intro h
        exact hnd'.1 (h ▸ List.mem_map.mpr ⟨p, hmem, rfl⟩)
      rw [lookupAssoc, if_neg hk]
      exact assoc_mem_lookup rest hnd'.2 p hmem

theorem spend_foldl_lookupD :
    ∀ (s : List MerchantSummary) (acc : List (String × ℚ)),
      (∀ p ∈ acc, isHundredths p.2) → (∀ m ∈ s, isHundredths m.monthly_cost) → ∀ c,
      (lookupAssoc c
        (s.foldl (fun a m => updateAssoc a m.currency m.monthly_cost) acc)).getD 0 =
        (lookupAssoc c acc).getD 0 +
          ((s.filter (fun m => decide (m.currency = c))).map MerchantSummary.monthly_cost).sum
  | [], acc, _, _, c => by simp
  | m :: s, acc, hacc, hs, c => by
    rw [List.foldl_cons]
    have hacc' := updateAssoc_hundredths acc m.currency m.monthly_cost hacc
    rw [spend_foldl_lookupD s (updateAssoc acc m.currency m.monthly_cost) hacc'
      (fun x hx => hs x (List.mem_cons_of_mem _ hx)) c]
    by_cases hc : m.currency = c
    · subst hc
      rw [lookupAssoc_updateAssoc_self]
      have hh : isHundredths ((lookupAssoc m.currency acc).getD 0 + m.monthly_cost) := by
        refine isHundredths_add ?_ (hs m (List.mem_cons_self _ _))
        cases hl : lookupAssoc m.currency acc with
        | none => exact isHundredths_zero
        | some x => exact hacc (m.currency, x) (lookupAssoc_mem acc m.currency x hl)
      rw [Option.getD_some, round2_of_isHundredths hh,
        List.filter_cons_of_pos (by simp), List.map_cons, List.sum_cons]
      ring
    · rw [lookupAssoc_updateAssoc_other acc m.currency c m.monthly_cost
        (fun h => hc h.symm), List.filter_cons_of_neg (by simp [hc])]

theorem spend_foldl_keys_nodup :
    ∀ (s : List MerchantSummary) (acc : List (String × ℚ)), (acc.map Prod.fst).Nodup →
      (((s.foldl (fun a m => updateAssoc a m.currency m.monthly_cost) acc)).map Prod.fst).Nodup
  | [], _, h => h
  | m :: s, acc, h =>
    spend_foldl_keys_nodup s _ (updateAssoc_keys_nodup acc m.currency m.monthly_cost h)

/-! ### Lemmas about summaries inside a report -/

theorem mem_merchants_inv {records : List ChargeRecord} {today : ℤ} {now : String}
    {s : MerchantSummary} (h : s ∈ (run_analysis records today now).merchants) :
    ∃ k g, s = analyze_merchant k g today ∧ ∀ r ∈ g, r ∈ records := by
  match records with
  | [] => exact absurd h (List.not_mem_nil s)
  | r0 :: rs =>
    have h' : s ∈ (groupByKey ChargeRecord.merchant
        ((r0 :: rs).filter (fun r => !isCancelled r))).map
        (fun g => analyze_merchant g.1 g.2 today) :=
      (List.mergeSort_perm _ _).mem_iff.mp h
    obtain ⟨g, hg, rfl⟩ := List.mem_map.mp h'
    obtain ⟨-, hg2⟩ := mem_groupByKey.mp hg
    refine ⟨g.1, g.2, rfl, fun r hr => ?_⟩
    rw [hg2] at hr
    exact (List.mem_filter.mp (List.mem_filter.mp hr).1).1

theorem analyze_merchant_avg_isHundredths (m : String) (recs : List ChargeRecord) (today : ℤ) :
    isHundredths (analyze_merchant m recs today).avg_amount := by
  show isHundredths (if _ then _ else _)
  split_ifs
  · exact isHundredths_zero
  · exact isHundredths_round2 _

theorem analyze_merchant_monthly_isHundredths (m : String) (recs : List ChargeRecord)
    (today : ℤ) : isHundredths (analyze_merchant m recs today).monthly_cost := by
  show isHundredths (match detect_frequency _ with
    | some Freq.yearly => round2 _
    | some Freq.quarterly => round2 _
    | _ => _)
  rcases detect_frequency _ with _ | f
  · exact analyze_merchant_avg_isHundredths m recs today
  · cases f
    · exact analyze_merchant_avg_isHundredths m recs today
    · exact isHundredths_round2 _
    · exact isHundredths_round2 _

theorem analyze_merchant_avg_nonneg (m : String) (recs : List ChargeRecord) (today : ℤ)
    (h : ∀ r ∈ recs, ∀ a ∈ r.amount, (0 : ℚ) ≤ a) :
    0 ≤ (analyze_merchant m recs today).avg_amount := by
  show (0 : ℚ) ≤ (if _ then 0 else round2 _)
  split_ifs
  · exact le_refl 0
  · refine round2_nonneg (div_nonneg (List.sum_nonneg fun a ha => ?_) (by positivity))
    obtain ⟨r, hr, hra⟩ := List.mem_filterMap.mp ha
    exact h r hr a hra

theorem analyze_merchant_monthly_nonneg (m : String) (recs : List ChargeRecord) (today : ℤ)
    (h : ∀ r ∈ recs, ∀ a ∈ r.amount, (0 : ℚ) ≤ a) :
    0 ≤ (analyze_merchant m recs today).monthly_cost := by
  have havg := analyze_merchant_avg_nonneg m recs today h
  show (0 : ℚ) ≤ (match detect_frequency _ with
    | some Freq.yearly => round2 _
    | some Freq.quarterly => round2 _
    | _ => _)
  rcases detect_frequency _ with _ | f
  · exact havg
  · cases f
    · exact havg
    · exact round2_nonneg (div_nonneg havg (by norm_num))
    · exact round2_nonneg (div_nonneg havg (by norm_num))

/-- C7: each present `spend_by_currency` value equals the plain sum of
`monthly_cost` over the report's summaries carrying that currency (the
per-step rounding is the identity on whole hundredths); under the contract
that record amounts are non-negative, every value is non-negative; and
`total_monthly_spend` is exactly the USD bucket — the USD-currency cost sum,
0 when no USD spend exists — never a mix of currencies. -/
theorem spend_by_currency_spec (records : List ChargeRecord) (today : ℤ) (now : String)
    (sp : List (String × ℚ))
    (hsp : (run_analysis records today now).spend_by_currency = some sp) :
    (∀ p ∈ sp,
      p.2 = (((run_analysis records today now).merchants.filter
        (fun m => decide (m.currency = p.1))).map MerchantSummary.monthly_cost).sum) ∧
    ((∀ r ∈ records, ∀ a ∈ r.amount, (0 : ℚ) ≤ a) → ∀ p ∈ sp, 0 ≤ p.2) ∧
    (run_analysis records today now).total_monthly_spend = (lookupAssoc "USD" sp).getD 0 ∧
    (run_analysis records today now).total_monthly_spend =
      (((run_analysis records today now).merchants.filter
        (fun m => decide (m.currency = "USD"))).map MerchantSummary.monthly_cost).sum := by
  match records with
  | [] => exact absurd hsp (by exact fun h => Option.noConfusion h)
  | r0 :: rs =>
    have h0 : (run_analysis (r0 :: rs) today now).spend_by_currency =
        some (spend_by_currency_list ((run_analysis (r0 :: rs) today now).merchants)) := rfl
    rw [h0] at hsp
    obtain rfl := (Option.some_inj.mp hsp).symm
    have hH : ∀ m ∈ (run_analysis (r0 :: rs) today now).merchants,
        isHundredths m.monthly_cost := by
      intro m hm
      obtain ⟨k, g, rfl, -⟩ := mem_merchants_inv hm
      exact analyze_merchant_monthly_isHundredths k g today
    have hlook := spend_foldl_lookupD ((run_analysis (r0 :: rs) today now).merchants) []
      (by simp) hH
    have hzero : ∀ c, (lookupAssoc c ([] : List (String × ℚ))).getD 0 = 0 := by
      intro c
      rfl
    have hval : ∀ p ∈ spend_by_currency_list ((run_analysis (r0 :: rs) today now).merchants),
        p.2 = ((((run_analysis (r0 :: rs) today now).merchants).filter
          (fun m => decide (m.currency = p.1))).map MerchantSummary.monthly_cost).sum := by
      intro p hp
      have hnd := spend_foldl_keys_nodup ((run_analysis (r0 :: rs) today now).merchants) []
        (by simp)
      have hl := assoc_mem_lookup _ hnd p hp
      have h2 := hlook p.1
      rw [hl] at h2
      simpa [lookupAssoc] using h2
    refine ⟨hval, ?_, rfl, ?_⟩
    · intro hpos p hp
      rw [hval p hp]
      refine List.sum_nonneg fun x hx => ?_
      obtain ⟨m, hm, rfl⟩ := List.mem_map.mp hx
      have hm' : m ∈ (run_analysis (r0 :: rs) today now).merchants :=
        (List.mem_filter.mp hm).1
      obtain ⟨k, g, rfl, hg⟩ := mem_merchants_inv hm'
      exact analyze_merchant_monthly_nonneg k g today
        (fun r hr a ha => hpos r (hg r hr) a ha)
    · have h2 := hlook "USD"
      rw [hzero "USD", zero_add] at h2
      exact h2

/-- Witness for C7 at a one-record store (null amount, so every amount
hypothesis is dischargeable and the USD bucket is 0). -/
theorem spend_by_currency_spec_witness :
    (run_analysis [sampleBadRecord] 0 "t").spend_by_currency = some [("USD", 0)] ∧
    (∀ p ∈ [(("USD" : String), (0 : ℚ))], 0 ≤ p.2) := by
  have hnull := analyze_merchant_null_fields "Mystery" [sampleBadRecord] 0
    (by decide) (by decide)
  have hmerch : (run_analysis [sampleBadRecord] 0 "t").merchants =
      [analyze_merchant "Mystery" [sampleBadRecord] 0] := by
    show ((groupByKey ChargeRecord.merchant
      ([sampleBadRecord].filter (fun r => !isCancelled r))).map
        (fun g => analyze_merchant g.1 g.2 0)).mergeSort
        (fun a b => decide (b.monthly_cost ≤ a.monthly_cost)) = _
    have hfil : [sampleBadRecord].filter (fun r => !isCancelled r) = [sampleBadRecord] := rfl
    have hgrp : groupByKey ChargeRecord.merchant [sampleBadRecord] =
        [("Mystery", [sampleBadRecord])] := by
      unfold groupByKey
      have hmap : [sampleBadRecord].map ChargeRecord.merchant = ["Mystery"] := rfl
      rw [hmap, dedupFirst, List.filter_nil, dedupFirst]
      simp [sampleBadRecord]
    rw [hfil, hgrp, List.map_cons, List.map_nil, List.mergeSort_singleton]
  have hsp : (run_analysis [sampleBadRecord] 0 "t").spend_by_currency = some [("USD", 0)] := by
    show some (spend_by_currency_list ((run_analysis [sampleBadRecord] 0 "t").merchants)) = _
    rw [hmerch]
    show some (updateAssoc [] (analyze_merchant "Mystery" [sampleBadRecord] 0).currency
      (analyze_merchant "Mystery" [sampleBadRecord] 0).monthly_cost) = _
    rw [hnull.2.2.1,
      show (analyze_merchant "Mystery" [sampleBadRecord] 0).currency = "USD" from rfl]
    show some [("USD", round2 (0 + 0))] = _
    norm_num [round2_of_isHundredths isHundredths_zero]
  have h := spend_by_currency_spec [sampleBadRecord] 0 "t" [("USD", 0)] hsp
  refine ⟨hsp, h.2.1 ?_⟩
  intro r hr a ha
  rw [List.mem_singleton] at hr
  subst hr
  simp [sampleBadRecord] at ha

/-! ### Lemmas about the recently-cancelled block -/

theorem cancelKeyLE_trans {a b c : Option ℤ} (h1 : cancelKeyLE a b = true)
    (h2 : cancelKeyLE b c = true) : cancelKeyLE a c = true := by
  match a, b, c with
  | none, _, _ => rfl
  | some x, none, _ => simp [cancelKeyLE] at h1
  | some x, some y, none => simp [cancelKeyLE] at h2
  | some x, some y, some z =>
    simp only [cancelKeyLE, decide_eq_true_eq] at h1 h2 ⊢
    exact le_trans h1 h2

theorem cancelKeyLE_total (a b : Option ℤ) : (cancelKeyLE a b || cancelKeyLE b a) = true := by
  match a, b with
  | none, _ => rfl
  | some x, none => rfl
  | some x, some y =>
    simp only [cancelKeyLE, Bool.or_eq_true, decide_eq_true_eq]
    exact le_total x y

theorem mem_recently_cancelled_inv {records : List ChargeRecord} {e : CancelledEntry}
    (h : e ∈ recently_cancelled_list records) :
    e.merchant ∉ (records.filter (fun r => !isCancelled r)).map ChargeRecord.merchant ∧
    e.cancelled_date = (((records.filter isCancelled).filter
      (fun r => decide (r.merchant = e.merchant))).filterMap ChargeRecord.date).max? := by
  have h' : e ∈ (groupByKey ChargeRecord.merchant (records.filter isCancelled)).filterMap
      (fun g => if g.1 ∈ (records.filter (fun r => !isCancelled r)).map ChargeRecord.merchant
        then none
        else some { merchant := g.1
                    category := categorize g.1
                    cancelled_date := (g.2.filterMap ChargeRecord.date).max?
                    last_amount := ((g.2.filterMap ChargeRecord.amount).filter
                      (fun a => decide (a ≠ 0))).head?
                    currency := (g.2.head?.bind ChargeRecord.currency).getD "USD" }) :=
    (List.mergeSort_perm _ _).mem_iff.mp h
  obtain ⟨g, hg, hsome⟩ := List.mem_filterMap.mp h'
  by_cases hguard : g.1 ∈ (records.filter (fun r => !isCancelled r)).map ChargeRecord.merchant
  · rw [if_pos hguard] at hsome
    cases hsome
  · rw [if_neg hguard] at hsome
    have he2 := Option.some_inj.mp hsome
    obtain ⟨-, hg2⟩ := mem_groupByKey.mp hg
    have hm : e.merchant = g.1 := by rw [← he2]
    have hcd : e.cancelled_date = (g.2.filterMap ChargeRecord.date).max? := by rw [← he2]
    rw [hm, hcd, hg2]
    exact ⟨hguard, rfl⟩

theorem mem_merchants_merchant_active {records : List ChargeRecord} {today : ℤ} {now : String}
    {s : MerchantSummary} (h : s ∈ (run_analysis records today now).merchants) :
    s.merchant ∈ (records.filter (fun r => !isCancelled r)).map ChargeRecord.merchant := by
  match records with
  | [] => exact absurd h (List.not_mem_nil s)
  | r0 :: rs =>
    have h' : s ∈ (groupByKey ChargeRecord.merchant
        ((r0 :: rs).filter (fun r => !isCancelled r))).map
        (fun g => analyze_merchant g.1 g.2 today) :=
      (List.mergeSort_perm _ _).mem_iff.mp h
    obtain ⟨g, hg, rfl⟩ := List.mem_map.mp h'
    exact (mem_groupByKey.mp hg).1

/-- C8: no merchant with an active record ever appears in
`recently_cancelled`; every entry's `cancelled_date` is the maximum parseable
date of that merchant's cancelled records (`none` when there is none); and
the list is sorted by cancelled date descending with missing dates last. -/
theorem recently_cancelled_spec (records : List ChargeRecord) (today : ℤ) (now : String)
    (rc : List CancelledEntry)
    (hrc : (run_analysis records today now).recently_cancelled = some rc) :
    (∀ e ∈ rc, ∀ r ∈ records, r.merchant = e.merchant → r.status = some "cancelled") ∧
    (∀ e ∈ rc, e.cancelled_date =
      (((records.filter isCancelled).filter
        (fun r => decide (r.merchant = e.merchant))).filterMap ChargeRecord.date).max?) ∧
    List.Pairwise (fun x y => cancelKeyLE y.cancelled_date x.cancelled_date = true) rc := by
  match records with
  | [] => exact absurd hrc (fun hh => Option.noConfusion hh)
  | r0 :: rs =>
    have h0 : (run_analysis (r0 :: rs) today now).recently_cancelled =
        some (recently_cancelled_list (r0 :: rs)) := rfl
    rw [h0] at hrc
    obtain rfl := (Option.some_inj.mp hrc).symm
    refine ⟨?_, ?_, ?_⟩
    · intro e he r hr hm
      have hinv := (mem_recently_cancelled_inv he).1
      by_cases hst : r.status = some "cancelled"
      · exact hst
      · exfalso
        apply hinv
        refine List.mem_map.mpr ⟨r, ?_, hm⟩
        exact List.mem_filter.mpr ⟨hr, by simp [isCancelled, hst]⟩
    · intro e he
      exact (mem_recently_cancelled_inv he).2
    · show List.Pairwise _ (List.mergeSort _ _)
      exact @List.sorted_mergeSort CancelledEntry
        (fun x y => cancelKeyLE y.cancelled_date x.cancelled_date)
        (fun a b c h1 h2 => cancelKeyLE_trans h2 h1)
        (fun a b => cancelKeyLE_total b.cancelled_date a.cancelled_date) _

/-- Witness for C8 at a store with one cancelled record. -/
theorem recently_cancelled_spec_witness :
    (run_analysis [sampleCancelledRecord] 0 "t").recently_cancelled =
      some (recently_cancelled_list [sampleCancelledRecord]) ∧
    (∀ e ∈ recently_cancelled_list [sampleCancelledRecord],
      ∀ r ∈ [sampleCancelledRecord],
        ChargeRecord.merchant r = e.merchant → r.status = some "cancelled") := by
  refine ⟨rfl, ?_⟩
  exact (recently_cancelled_spec [sampleCancelledRecord] 0 "t" _ rfl).1

/-- C10: the merchant names in the report's merchants list are pairwise
distinct (one summary per exact merchant name), and no name appears both
there and in `recently_cancelled`. -/
theorem merchants_distinct_spec (records : List ChargeRecord) (today : ℤ) (now : String) :
    ((run_analysis records today now).merchants.map MerchantSummary.merchant).Nodup ∧
    (∀ rc, (run_analysis records today now).recently_cancelled = some rc →
      ∀ s ∈ (run_analysis records today now).merchants, ∀ e ∈ rc,
        s.merchant ≠ e.merchant) := by
  constructor
  · match records with
    | [] => exact List.nodup_nil
    | r0 :: rs =>
      have hperm : ((run_analysis (r0 :: rs) today now).merchants.map
          MerchantSummary.merchant).Perm
          (((groupByKey ChargeRecord.merchant
            ((r0 :: rs).filter (fun r => !isCancelled r))).map
            (fun g => analyze_merchant g.1 g.2 today)).map MerchantSummary.merchant) :=
        (List.mergeSort_perm _ _).map MerchantSummary.merchant
      rw [hperm.nodup_iff, List.map_map]
      have hmm : ((groupByKey ChargeRecord.merchant
          ((r0 :: rs).filter (fun r => !isCancelled r))).map
          (MerchantSummary.merchant ∘ fun g => analyze_merchant g.1 g.2 today)) =
          (groupByKey ChargeRecord.merchant
            ((r0 :: rs).filter (fun r => !isCancelled r))).map Prod.fst := rfl
      rw [hmm, groupByKey_keys]
      exact dedupFirst_nodup _
  · intro rc hrc s hs e he heq
    match records, hrc with
    | r0 :: rs, hrc =>
      have h0 : (run_analysis (r0 :: rs) today now).recently_cancelled =
          some (recently_cancelled_list (r0 :: rs)) := rfl
      rw [h0] at hrc
      obtain rfl := (Option.some_inj.mp hrc).symm
      have h1 := mem_merchants_merchant_active hs
      have h2 := (mem_recently_cancelled_inv he).1
      rw [heq] at h1
      exact h2 h1

/-- Witness for C10's inner hypothesis at a two-record store with one active
and one cancelled merchant. -/
theorem merchants_distinct_spec_witness :
    (run_analysis [sampleBadRecord] 0 "t").recently_cancelled =
      some (recently_cancelled_list [sampleBadRecord]) ∧
    (∀ s ∈ (run_analysis [sampleBadRecord] 0 "t").merchants,
      ∀ e ∈ recently_cancelled_list [sampleBadRecord], s.merchant ≠ e.merchant) := by
  refine ⟨rfl, ?_⟩
  exact (merchants_distinct_spec [sampleBadRecord] 0 "t").2
    (recently_cancelled_list [sampleBadRecord]) rfl

/-- C2 (corrected): on the empty record store `run_analysis` returns the
zero-value report — counts 0, the four always-present list fields empty,
totals 0 — but the `spend_by_currency`, `recently_cancelled`,
`monthly_trend` and `category_breakdown` keys are absent from the
empty-branch dict (modelled as `none`), unlike a non-empty report. -/
theorem empty_report_spec (today : ℤ) (now : String) :
    run_analysis [] today now =
      { generated_at := now, total_records := 0, merchant_count := 0,
        total_monthly_spend := 0, total_yearly_spend := 0,
        potential_monthly_savings := 0, merchants := [], overlaps := [],
        forgotten_subscriptions := [], upcoming_renewals_30d := [],
        spend_by_currency := none, recently_cancelled := none,
        monthly_trend := none, category_breakdown := none } := rfl

/-- Counterexample to C2 as stated: on the empty store the report does not
carry `spend_by_currency = {}` (nor empty `recently_cancelled`,
`category_breakdown`, `monthly_trend` lists) — those keys are absent. -/
theorem empty_report_counterexample :
    (run_analysis [] 0 "1970-01-01T00:00:00").spend_by_currency ≠ some [] ∧
    (run_analysis [] 0 "1970-01-01T00:00:00").recently_cancelled ≠ some [] ∧
    (run_analysis [] 0 "1970-01-01T00:00:00").category_breakdown ≠ some [] ∧
    (run_analysis [] 0 "1970-01-01T00:00:00").monthly_trend ≠ some [] := by
  refine ⟨?_, ?_, ?_, ?_⟩ <;> exact fun h => Option.noConfusion h

/-- C9: `run_analysis` is deterministic and idempotent — with the record
snapshot and `today` fixed, two runs agree on every report field except the
`generated_at` timestamp. -/
theorem run_analysis_deterministic (records : List ChargeRecord) (today : ℤ)
    (now₁ now₂ : String) :
    (run_analysis records today now₁).total_records =
      (run_analysis records today now₂).total_records ∧
    (run_analysis records today now₁).merchant_count =
      (run_analysis records today now₂).merchant_count ∧
    (run_analysis records today now₁).total_monthly_spend =
      (run_analysis records today now₂).total_monthly_spend ∧
    (run_analysis records today now₁).total_yearly_spend =
      (run_analysis records today now₂).total_yearly_spend ∧
    (run_analysis records today now₁).potential_monthly_savings =
      (run_analysis records today now₂).potential_monthly_savings ∧
    (run_analysis records today now₁).merchants =
      (run_analysis records today now₂).merchants ∧
    (run_analysis records today now₁).overlaps =
      (run_analysis records today now₂).overlaps ∧
    (run_analysis records today now₁).forgotten_subscriptions =
      (run_analysis records today now₂).forgotten_subscriptions ∧
    (run_analysis records today now₁).upcoming_renewals_30d =
      (run_analysis records today now₂).upcoming_renewals_30d ∧
    (run_analysis records today now₁).spend_by_currency =
      (run_analysis records today now₂).spend_by_currency ∧
    (run_analysis records today now₁).recently_cancelled =
      (run_analysis records today now₂).recently_cancelled ∧
    (run_analysis records today now₁).monthly_trend =
      (run_analysis records today now₂).monthly_trend ∧
    (run_analysis records today now₁).category_breakdown =
      (run_analysis records today now₂).category_breakdown := by
  cases records <;>
    exact ⟨rfl, rfl, rfl, rfl, rfl, rfl, rfl, rfl, rfl, rfl, rfl, rfl, rfl⟩

end MySub
